import Mathlib

/-
Verification development for the geyserbench latency-comparison harness.

The repository has two source files, both endpoint-runner variants:
  * src/providers/shredstream_proxy.rs      (bundled-entry variant)
  * src/providers/yellowstone_accounts.rs   (dual-stream variant)

This file gives a shallow embedding of the data model and the operations of
those runners and proves/refutes the frozen claims about them.

Modelling conventions:
  * Wall-clock timestamps (`f64` seconds in the source) are modelled as `Rat`.
    The merge and comparison paths only use `<` on timestamps, so any linearly
    ordered field is faithful; `Rat` keeps everything decidable.
  * base58 encoding of byte arrays (`bs58::encode(..).into_string()`) is an
    external collaborator; strings in the model are the already-encoded values.
  * `HashMap` registries are modelled as insertion-ordered association lists;
    none of the claims depends on hash iteration order.
  * `get_current_timestamp()` is an input oracle: each incoming event in the
    model carries the timestamp the runner would capture for it.
  * `write_log_entry` appends to a pure log; its `IoError` path is out of the
    claims' scope.
  * A Rust panic (a failing `unwrap()` or a slice out of bounds) is modelled
    by `Option`: `none` means the runner task panics at that message.
-/

abbrev Timestamp := Rat

/-- Observation payload passed to `Comparator.add`, from `utils::TransactionData`
(declared by both runners' call sites). -/
structure TransactionData where
  timestamp : Timestamp
  signature : String
  start_time : Timestamp
deriving Repr, DecidableEq

/-- Modelled from the spec: the Race Tracker (`utils::Comparator`) is not under
`src/`; only its call sites are. Per spec section 4.1, `add` inserts the
endpoint's arrival time into the signature's record if and only if that
endpoint has no prior entry for that signature, and a record is complete once
at least one endpoint has reported it, so `get_valid_count` is the number of
distinct signatures seen. Records are kept as an insertion-ordered list of
`(signature, observations)` pairs. -/
structure Comparator where
  records : List (String × List (String × Timestamp))
deriving Repr, DecidableEq

/-- Modelled from the spec: insertion of one observation into the record list
(iff the endpoint has no prior entry for the signature). -/
def addObservation (recs : List (String × List (String × Timestamp)))
    (endpoint_name sig : String) (ts : Timestamp) :
    List (String × List (String × Timestamp)) :=
  match recs with
  | [] => [(sig, [(endpoint_name, ts)])]
  | (s, obs) :: rest =>
    if s = sig then
      if obs.any (fun p => p.1 = endpoint_name) then (s, obs) :: rest
      else (s, obs ++ [(endpoint_name, ts)]) :: rest
    else (s, obs) :: addObservation rest endpoint_name sig ts

/-- Modelled from the spec: `Comparator::add`. -/
def Comparator.add (c : Comparator) (endpoint_name : String)
    (d : TransactionData) : Comparator :=
  ⟨addObservation c.records endpoint_name d.signature d.timestamp⟩

/-- Modelled from the spec: `Comparator::get_valid_count`, the number of
signatures whose record is complete (at least one endpoint reported). -/
def Comparator.get_valid_count (c : Comparator) : Nat :=
  c.records.length

/-- Per-signature dual-stream aggregate, from `StreamLatencyData`
(yellowstone_accounts.rs lines 58-65). -/
structure StreamLatencyData where
  signature : String
  account_timestamp : Option Timestamp
  transaction_timestamp : Option Timestamp
  account_endpoint : Option String
  transaction_endpoint : Option String
deriving Repr, DecidableEq

/-- The `or_insert` default used at every tracker entry site: all four slots
unset (yellowstone_accounts.rs lines 177-183 and the three analogous sites). -/
def newLatencyData (sig : String) : StreamLatencyData :=
  ⟨sig, none, none, none, none⟩

/-- Local tracker mutation for a transaction observation
(yellowstone_accounts.rs lines 184-187): the timestamp is written
unconditionally; the endpoint field only if it is still unset. -/
def localTxUpdate (endpoint_name : String) (timestamp : Timestamp)
    (d : StreamLatencyData) : StreamLatencyData :=
  let d1 := { d with transaction_timestamp := some timestamp }
  match d1.transaction_endpoint with
  | none => { d1 with transaction_endpoint := some endpoint_name }
  | some _ => d1

/-- Local tracker mutation for an account observation
(yellowstone_accounts.rs lines 277-280). -/
def localAccountUpdate (endpoint_name : String) (timestamp : Timestamp)
    (d : StreamLatencyData) : StreamLatencyData :=
  let d1 := { d with account_timestamp := some timestamp }
  match d1.account_endpoint with
  | none => { d1 with account_endpoint := some endpoint_name }
  | some _ => d1

/-- Global tracker merge for a transaction observation
(yellowstone_accounts.rs lines 199-202): replace only when the slot is unset
or the new timestamp is strictly earlier. -/
def globalTxUpdate (endpoint_name : String) (timestamp : Timestamp)
    (d : StreamLatencyData) : StreamLatencyData :=
  match d.transaction_timestamp with
  | none =>
    { d with transaction_timestamp := some timestamp
             transaction_endpoint := some endpoint_name }
  | some cur =>
    if timestamp < cur then
      { d with transaction_timestamp := some timestamp
               transaction_endpoint := some endpoint_name }
    else d

/-- Global tracker merge for an account observation
(yellowstone_accounts.rs lines 292-295). -/
def globalAccountUpdate (endpoint_name : String) (timestamp : Timestamp)
    (d : StreamLatencyData) : StreamLatencyData :=
  match d.account_timestamp with
  | none =>
    { d with account_timestamp := some timestamp
             account_endpoint := some endpoint_name }
  | some cur =>
    if timestamp < cur then
      { d with account_timestamp := some timestamp
               account_endpoint := some endpoint_name }
    else d

/-- The shared shape of the two global merge rules on one
`(timestamp, endpoint)` slot. -/
def mergeMinSlot (slot : Option Timestamp × Option String)
    (endpoint_name : String) (timestamp : Timestamp) :
    Option Timestamp × Option String :=
  match slot.1 with
  | none => (some timestamp, some endpoint_name)
  | some cur =>
    if timestamp < cur then (some timestamp, some endpoint_name) else slot

/-- One signature's sequence of global transaction-slot updates, starting from
the `or_insert` default (as performed by the runners under the global lock). -/
def runGlobalTx (sig : String) (l : List (String × Timestamp)) :
    StreamLatencyData :=
  l.foldl (fun d p => globalTxUpdate p.1 p.2 d) (newLatencyData sig)

/-- One signature's sequence of global account-slot updates. -/
def runGlobalAccount (sig : String) (l : List (String × Timestamp)) :
    StreamLatencyData :=
  l.foldl (fun d p => globalAccountUpdate p.1 p.2 d) (newLatencyData sig)

/-- Minimum of a list of timestamps (`none` on the empty list). -/
def listMin : List Timestamp → Option Timestamp
  | [] => none
  | t :: ts =>
    some (match listMin ts with
          | none => t
          | some m => if t ≤ m then t else m)

/-- The endpoint of the first submission that attains the minimum timestamp. -/
def firstAtMin (l : List (String × Timestamp)) : Option String :=
  match listMin (l.map Prod.snd) with
  | none => none
  | some m => (l.find? (fun p => decide (p.2 = m))).map Prod.fst

/-- The print-once trigger of the dual-stream runner (yellowstone_accounts.rs
lines 360-363): `SHUTDOWN_COUNT.fetch_add(1) == 1`. `fetch_add` returns the
previous value of the process-wide completed-runner counter, so the runner
whose completion is the k-th (0-based index `prevCount = k`) prints the
global statistics iff `prevCount == 1`, i.e. the literal constant 1. -/
def shutdownCountTrigger (prevCount : Nat) : Bool :=
  prevCount == 1

/-- How many times the global statistics report is printed over a whole run in
which `endpointCount` dual-stream runner tasks terminate (the atomic counter
serializes the terminations; the k-th terminating runner sees previous value
k). -/
def globalPrintTotal (endpointCount : Nat) : Nat :=
  ((List.range endpointCount).filter (fun k => shutdownCountTrigger k)).length

/-- State of the tokio broadcast shutdown channel as the runners use it: how
many receiver handles are currently subscribed, and whether the signal has
already been sent by some runner. Modelled from the documented semantics of
`tokio::sync::broadcast`: `send` succeeds iff at least one receiver is
subscribed, independently of any earlier sends; with no receivers it returns
an error. -/
structure BroadcastState where
  receiverCount : Nat
  alreadySent : Bool
deriving Repr, DecidableEq

/-- `shutdown_tx.send(())` result: `Except.error` when no receiver is
subscribed. -/
def broadcastSend (s : BroadcastState) : Except Unit BroadcastState :=
  if s.receiverCount = 0 then .error ()
  else .ok { s with alreadySent := true }

/-- The runners' send site, `shutdown_tx.send(()).unwrap()`
(shredstream_proxy.rs line 98, yellowstone_accounts.rs line 238): `unwrap`
panics (`none`) exactly when `send` returned an error. -/
def broadcastSendUnwrap (s : BroadcastState) : Option BroadcastState :=
  (broadcastSend s).toOption

/-- One win-counter increment, `*map.entry(endpoint).or_insert(0) += 1`
(yellowstone_accounts.rs lines 384, 389). -/
def incWin (wins : List (String × Nat)) (endpoint : String) :
    List (String × Nat) :=
  match wins with
  | [] => [(endpoint, 1)]
  | (e, c) :: rest =>
    if e = endpoint then (e, c + 1) :: rest else (e, c) :: incWin rest endpoint

/-- Accumulator of the aggregation loop of `print_global_statistics`
(yellowstone_accounts.rs lines 374-404). -/
structure GlobalStatsAcc where
  account_endpoint_wins : List (String × Nat)
  tx_endpoint_wins : List (String × Nat)
  both_received : Nat
  account_faster : Nat
  tx_faster : Nat
  timing_diffs : List Rat
deriving Repr, DecidableEq

/-- One iteration of the aggregation loop of `print_global_statistics` over a
tracker record (yellowstone_accounts.rs lines 381-404). -/
def globalStatsStep (acc : GlobalStatsAcc) (data : StreamLatencyData) :
    GlobalStatsAcc :=
  let acc1 :=
    match data.account_endpoint with
    | some e => { acc with account_endpoint_wins := incWin acc.account_endpoint_wins e }
    | none => acc
  let acc2 :=
    match data.transaction_endpoint with
    | some e => { acc1 with tx_endpoint_wins := incWin acc1.tx_endpoint_wins e }
    | none => acc1
  match data.account_timestamp, data.transaction_timestamp with
  | some acct_ts, some tx_ts =>
    { acc2 with
      both_received := acc2.both_received + 1
      timing_diffs := acc2.timing_diffs ++ [(tx_ts - acct_ts) * 1000]
      account_faster :=
        if acct_ts < tx_ts then acc2.account_faster + 1 else acc2.account_faster
      tx_faster :=
        if acct_ts < tx_ts then acc2.tx_faster else acc2.tx_faster + 1 }
  | _, _ => acc2

/-- The whole aggregation loop of `print_global_statistics`. -/
def globalStatsAcc (tracker : List (String × StreamLatencyData)) :
    GlobalStatsAcc :=
  tracker.foldl (fun a p => globalStatsStep a p.2) ⟨[], [], 0, 0, 0, []⟩

/-- Every division `print_global_statistics` executes, listed by its
denominator: one division by `global_tracker.len()` per entry of each win map
(lines 409, 415), and, only when `both_received > 0`, the average (by
`timing_diffs.len()`, line 422), the median index (by the literal 2, line
423) and the two percentages (by `both_received`, lines 429, 433). -/
def print_global_statistics_divisors
    (tracker : List (String × StreamLatencyData)) : List Nat :=
  let acc := globalStatsAcc tracker
  acc.account_endpoint_wins.map (fun _ => tracker.length)
  ++ acc.tx_endpoint_wins.map (fun _ => tracker.length)
  ++ (if 0 < acc.both_received then
        [acc.timing_diffs.length, 2, acc.both_received, acc.both_received]
      else [])

/-- The `both_received` count of `print_stream_statistics`
(yellowstone_accounts.rs lines 451-464). -/
def streamStatsBoth (latencies : List (String × StreamLatencyData)) : Nat :=
  latencies.foldl
    (fun n p =>
      match p.2.account_timestamp, p.2.transaction_timestamp with
      | some _, some _ => n + 1
      | _, _ => n) 0

/-- Every division `print_stream_statistics` executes, by denominator: all are
guarded by `both_received > 0` (line 466) — the average (by `both_received`,
line 468), the median index (by the literal 2, line 470) and the two
percentages (by `both_received`, lines 480, 484). -/
def print_stream_statistics_divisors
    (latencies : List (String × StreamLatencyData)) : List Nat :=
  let b := streamStatsBoth latencies
  if 0 < b then [b, 2, b, b] else []

/-- `HashMap::entry(sig).or_insert(default)` followed by a mutation `f` of the
entry, on the insertion-ordered association-list model of the tracker maps. -/
def updateEntry (m : List (String × StreamLatencyData)) (sig : String)
    (f : StreamLatencyData → StreamLatencyData) :
    List (String × StreamLatencyData) :=
  match m with
  | [] => [(sig, f (newLatencyData sig))]
  | (s, d) :: rest =>
    if s = sig then (s, f d) :: rest else (s, d) :: updateEntry rest sig f

/-- The record the `entry` handle refers to: the stored one, or the
`or_insert` default. -/
def getOr (m : List (String × StreamLatencyData)) (sig : String) :
    StreamLatencyData :=
  match m.lookup sig with
  | some d => d
  | none => newLatencyData sig

/-- Inner protobuf message of a transaction, exposing the account keys
(already base58-encoded in the model). -/
structure RawMessage where
  account_keys : List String
deriving Repr, DecidableEq

/-- Inner transaction: signatures (base58-encoded) and optional message. -/
structure RawTransaction where
  signatures : List String
  message : Option RawMessage
deriving Repr, DecidableEq

/-- `SubscribeUpdateTransactionInfo`: its `transaction` field is optional in
the wire format. -/
structure SubscribeUpdateTransactionInfo where
  transaction : Option RawTransaction
deriving Repr, DecidableEq

/-- `SubscribeUpdateTransaction` as matched at yellowstone_accounts.rs line
165-166. -/
structure SubscribeUpdateTransaction where
  transaction : Option SubscribeUpdateTransactionInfo
deriving Repr, DecidableEq

/-- Account info of an account-update message: base58-encoded pubkey and
optional transaction signature. -/
structure SubscribeUpdateAccountInfo where
  pubkey : String
  txn_signature : Option String
deriving Repr, DecidableEq

/-- `SubscribeUpdateAccount` as matched at yellowstone_accounts.rs lines
246-248. -/
structure SubscribeUpdateAccount where
  account : Option SubscribeUpdateAccountInfo
deriving Repr, DecidableEq

/-- The update payload variants the dual-stream loop distinguishes
(yellowstone_accounts.rs lines 164-338); `other` covers Slot, Block, etc. -/
inductive UpdateOneof where
  | transaction (tx_msg : SubscribeUpdateTransaction)
  | account (account_msg : SubscribeUpdateAccount)
  | ping
  | other
deriving Repr, DecidableEq

/-- The dual-stream runner's mutable state: its counters, the local and (in
the model, runner-held) global trackers, its log file contents, the shared
comparator, and the shutdown bookkeeping of its loop. -/
structure YellowstoneState where
  transaction_count : Nat
  account_update_count : Nat
  stream_latencies : List (String × StreamLatencyData)
  global_tracker : List (String × StreamLatencyData)
  log_entries : List (Timestamp × String × String)
  comp : Comparator
  shutdown_sends : Nat
  running : Bool
deriving Repr, DecidableEq

def initialYellowstoneState : YellowstoneState :=
  ⟨0, 0, [], [], [], ⟨[]⟩, 0, true⟩

/-- The transaction branch of the dual-stream loop (yellowstone_accounts.rs
lines 165-244). `none` models the panic of
`tx.transaction.clone().unwrap().message.unwrap()` (line 167) and of
`signatures[0]` (line 174). When the watched account matches, the local and
global trackers are updated, a `_TX` log entry is written, the observation is
added to the comparator, and the shutdown check runs immediately after the
add under the same lock (lines 221-240); the `transaction_count` increment
(line 242) is skipped when the shutdown path breaks the loop. -/
def processTransactionUpdate (n : Nat) (account endpoint_name : String)
    (start_time now : Timestamp) (tx_msg : SubscribeUpdateTransaction)
    (s : YellowstoneState) : Option YellowstoneState :=
  match tx_msg.transaction with
  | none => some s
  | some tx =>
    match tx.transaction with
    | none => none
    | some raw =>
      match raw.message with
      | none => none
      | some msg =>
        if account ∈ msg.account_keys then
          match raw.signatures with
          | [] => none
          | sigStr :: _ =>
            let local1 := updateEntry s.stream_latencies sigStr
              (localTxUpdate endpoint_name now)
            let global1 := updateEntry s.global_tracker sigStr
              (globalTxUpdate endpoint_name now)
            let log1 := s.log_entries
              ++ [(now, endpoint_name ++ "_TX", sigStr)]
            let comp1 := s.comp.add endpoint_name ⟨now, sigStr, start_time⟩
            if comp1.get_valid_count = n then
              some { s with stream_latencies := local1,
                            global_tracker := global1,
                            log_entries := log1, comp := comp1,
                            shutdown_sends := s.shutdown_sends + 1,
                            running := false }
            else
              some { s with stream_latencies := local1,
                            global_tracker := global1,
                            log_entries := log1, comp := comp1,
                            transaction_count := s.transaction_count + 1 }
        else some s

/-- The account branch of the dual-stream loop (yellowstone_accounts.rs lines
246-315). The runner-internal account-update counter is incremented for every
present account info (line 250); with no `txn_signature` nothing else happens
(line 253). Otherwise the first-ten console log slices the first 8 characters
of both the account key and the signature (lines 258-267) and the dual-match
log slices the signature (line 311); either slice panics (`none`) on a string
shorter than 8 characters. -/
def processAccountUpdate (endpoint_name : String) (now : Timestamp)
    (account_msg : SubscribeUpdateAccount) (s : YellowstoneState) :
    Option YellowstoneState :=
  match account_msg.account with
  | none => some s
  | some account_info =>
    let account_key := account_info.pubkey
    let count1 := s.account_update_count + 1
    match account_info.txn_signature with
    | none => some { s with account_update_count := count1 }
    | some sigStr =>
      if count1 ≤ 10 ∧ (account_key.length < 8 ∨ sigStr.length < 8) then
        none
      else
        let entry1 := localAccountUpdate endpoint_name now
          (getOr s.stream_latencies sigStr)
        let local1 := updateEntry s.stream_latencies sigStr
          (localAccountUpdate endpoint_name now)
        let global1 := updateEntry s.global_tracker sigStr
          (globalAccountUpdate endpoint_name now)
        let log1 := s.log_entries
          ++ [(now, endpoint_name ++ "_ACCT", sigStr)]
        match entry1.transaction_timestamp with
        | some _ =>
          if sigStr.length < 8 then none
          else
            some { s with account_update_count := count1,
                          stream_latencies := local1,
                          global_tracker := global1,
                          log_entries := log1 }
        | none =>
          some { s with account_update_count := count1,
                        stream_latencies := local1,
                        global_tracker := global1,
                        log_entries := log1 }

/-- One iteration of the dual-stream select loop on a received update
(yellowstone_accounts.rs lines 154-352): pings are answered without state
change, other update kinds only logged. -/
def yellowstoneStep (n : Nat) (account endpoint_name : String)
    (start_time : Timestamp) (s : YellowstoneState)
    (msg : UpdateOneof × Timestamp) : Option YellowstoneState :=
  if s.running then
    match msg.1 with
    | .transaction tx_msg =>
      processTransactionUpdate n account endpoint_name start_time msg.2 tx_msg s
    | .account account_msg =>
      processAccountUpdate endpoint_name msg.2 account_msg s
    | .ping => some s
    | .other => some s
  else some s

/-- The dual-stream runner's whole message loop over a finite received
stream; `none` means the runner task panicked at some message. -/
def yellowstoneRun (n : Nat) (account endpoint_name : String)
    (start_time : Timestamp) (msgs : List (UpdateOneof × Timestamp)) :
    Option YellowstoneState :=
  msgs.foldlM (yellowstoneStep n account endpoint_name start_time)
    initialYellowstoneState

/-- A decoded transaction's message: legacy or v0 format, each carrying
account keys (shredstream_proxy.rs lines 135-142; keys already
base58-encoded in the model). -/
inductive VersionedMessage where
  | legacy (account_keys : List String)
  | v0 (account_keys : List String)
deriving Repr, DecidableEq

/-- The account keys the match at lines 135-142 extracts (the same extraction
for both formats). -/
def VersionedMessage.keysOf : VersionedMessage → List String
  | .legacy ks => ks
  | .v0 ks => ks

/-- A transaction decoded from a bundled entry. -/
structure ShredTx where
  signatures : List String
  message : VersionedMessage
deriving Repr, DecidableEq

/-- One deserialized `solana_entry::entry::Entry`; each transaction is paired
with the timestamp `get_current_timestamp()` returns at its processing. -/
structure SolanaEntryT where
  transactions : List (ShredTx × Timestamp)
deriving Repr, DecidableEq

/-- One received shredstream message: the slot and the result of
`bincode::deserialize` on its `entries` bytes (`none` models a
deserialization failure, shredstream_proxy.rs lines 130 and 166-168). -/
structure ShredEntry where
  slot : Nat
  entries : Option (List SolanaEntryT)
deriving Repr, DecidableEq

/-- The shredstream subscription request carries no filter field at all
(`SubscribeEntriesRequest {}`, shredstream_proxy.rs line 69). -/
structure SubscribeEntriesRequest
deriving Repr, DecidableEq

/-- The request the runner subscribes with. -/
def shredSubscribeRequest : SubscribeEntriesRequest := {}

/-- Shredstream runner state: its log file contents, the shared comparator,
its transaction counter and the loop's shutdown bookkeeping. -/
structure ShredState where
  log_entries : List (Timestamp × String × String)
  comp : Comparator
  transaction_count : Nat
  shutdown_sends : Nat
  running : Bool
deriving Repr, DecidableEq

def initialShredState : ShredState :=
  ⟨[], ⟨[]⟩, 0, 0, true⟩

/-- Processing of one decoded transaction (shredstream_proxy.rs lines
133-163): if the watched account appears among the account keys, a log entry
is written, the observation is added to the comparator, and the transaction
counter is incremented; otherwise nothing happens. `none` models the panic of
`tx.signatures[0]` on an empty signature list (line 146). -/
def processShredTx (account endpoint_name : String) (start_time : Timestamp)
    (s : ShredState) (txnow : ShredTx × Timestamp) : Option ShredState :=
  if account ∈ txnow.1.message.keysOf then
    match txnow.1.signatures with
    | [] => none
    | sigStr :: _ =>
      some { s with
        log_entries := s.log_entries ++ [(txnow.2, endpoint_name, sigStr)]
        comp := s.comp.add endpoint_name ⟨txnow.2, sigStr, start_time⟩
        transaction_count := s.transaction_count + 1 }
  else some s

/-- `process_entry` (shredstream_proxy.rs lines 113-171): on a
deserialization failure the entry is dropped with a debug log and no state
change; otherwise every transaction of every deserialized entry is
processed. -/
def processEntry (account endpoint_name : String) (start_time : Timestamp)
    (s : ShredState) (entry : ShredEntry) : Option ShredState :=
  match entry.entries with
  | none => some s
  | some entries =>
    entries.foldlM
      (fun st se =>
        se.transactions.foldlM
          (processShredTx account endpoint_name start_time) st) s

/-- One iteration of the shredstream select loop on a received entry message
(shredstream_proxy.rs lines 80-105): `process_entry` runs first, and only
afterwards — once per message, not once per add — the runner takes the lock
again and compares `get_valid_count()` with the target, broadcasting shutdown
and breaking on equality. -/
def shredStep (n : Nat) (account endpoint_name : String)
    (start_time : Timestamp) (s : ShredState) (entry : ShredEntry) :
    Option ShredState :=
  if s.running then
    match processEntry account endpoint_name start_time s entry with
    | none => none
    | some s1 =>
      if s1.comp.get_valid_count = n then
        some { s1 with shutdown_sends := s1.shutdown_sends + 1
                       running := false }
      else some s1
  else some s

/-- The shredstream runner's whole message loop over a finite received
stream. -/
def shredRun (n : Nat) (account endpoint_name : String)
    (start_time : Timestamp) (entries : List ShredEntry) :
    Option ShredState :=
  entries.foldlM (shredStep n account endpoint_name start_time)
    initialShredState

/-- Set-like accumulation of the distinct signatures seen so far (the key set
of the comparator's record map grows exactly like this under `add`). -/
def insertSig (seen : List String) (sig : String) : List String :=
  if sig ∈ seen then seen else seen ++ [sig]

/-- Number of distinct signatures in a stream of signatures. -/
def distinctCount (sigs : List String) : Nat :=
  (sigs.foldl insertSig []).length

/-- A fully formed transaction update of the dual-stream feed that matches
the watched account: present outer and inner transaction, one signature, and
a message whose account keys contain the account. -/
def matchedTxMsg (account sigStr : String) : UpdateOneof :=
  .transaction ⟨some ⟨some ⟨[sigStr], some ⟨[account]⟩⟩⟩⟩

/-- A received dual-stream message list consisting only of matching
transaction updates, one per `(signature, timestamp)` event. -/
def txStream (account : String) (evs : List (String × Timestamp)) :
    List (UpdateOneof × Timestamp) :=
  evs.map (fun p => (matchedTxMsg account p.1, p.2))

/-- All decoded transactions of one received entry message, in processing
order (empty on a deserialization failure). -/
def entryTxs (entry : ShredEntry) : List (ShredTx × Timestamp) :=
  match entry.entries with
  | none => []
  | some entries => (entries.map SolanaEntryT.transactions).flatten

/-- The signatures recorded from a transaction list: first signature of each
transaction whose account keys contain the watched account. -/
def txsMatchedSigs (account : String) (txs : List (ShredTx × Timestamp)) :
    List String :=
  (txs.filter (fun t => decide (account ∈ t.1.message.keysOf))).map
    (fun t => t.1.signatures.headD "")

/-- The signatures recorded from one entry message. -/
def matchedSigs (account : String) (entry : ShredEntry) : List String :=
  match entry.entries with
  | none => []
  | some entries =>
    (entries.map (fun se => txsMatchedSigs account se.transactions)).flatten

/-- The signatures recorded from a list of entry messages. -/
def entriesMatchedSigs (account : String) (ents : List ShredEntry) :
    List String :=
  (ents.map (matchedSigs account)).flatten

lemma listMin_le : ∀ (ts : List Timestamp) (m : Timestamp),
    listMin ts = some m → ∀ t ∈ ts, m ≤ t := by
  intro ts
  induction ts with
  | nil => intro m h; cases h
  | cons t rest ih =>
    intro m h u hu
    simp only [listMin] at h
    cases hm : listMin rest with
    | none =>
      rw [hm] at h
      have hrest : rest = [] := by
        cases rest with
        | nil => rfl
        | cons a b => simp [listMin] at hm
      subst hrest
      simp at h hu
      subst h; subst hu; exact le_refl _
    | some m' =>
      rw [hm] at h
      simp only [Option.some.injEq] at h
      subst h
      rcases List.mem_cons.mp hu with h | h
      · subst h
        by_cases ht : u ≤ m'
        · rw [if_pos ht]
        · rw [if_neg ht]; exact le_of_lt (not_le.mp ht)
      · by_cases ht : t ≤ m'
        · rw [if_pos ht]; exact le_trans ht (ih m' hm u h)
        · rw [if_neg ht]; exact ih m' hm u h

lemma listMin_mem : ∀ (ts : List Timestamp), ts ≠ [] →
    ∃ m, listMin ts = some m ∧ m ∈ ts := by
  intro ts
  induction ts with
  | nil => intro h; exact absurd rfl h
  | cons t rest ih =>
    intro _
    cases hm : listMin rest with
    | none =>
      refine ⟨t, ?_, List.mem_cons_self _ _⟩
      simp only [listMin, hm]
    | some m' =>
      have hrest : rest ≠ [] := by
        rintro rfl; simp [listMin] at hm
      obtain ⟨m'', hm'', hmem⟩ := ih hrest
      rw [hm] at hm''
      injection hm'' with h'
      subst h'
      by_cases ht : t ≤ m'
      · refine ⟨t, ?_, List.mem_cons_self _ _⟩
        simp only [listMin, hm, if_pos ht]
      · refine ⟨m', ?_, List.mem_cons_of_mem _ hmem⟩
        simp only [listMin, hm, if_neg ht]

lemma mergeMinSlot_foldl_some :
    ∀ (l : List (String × Timestamp)) (t0 : Timestamp) (e0 : Option String),
    List.foldl (fun s p => mergeMinSlot s p.1 p.2) (some t0, e0) l =
      (match listMin (l.map Prod.snd) with
       | none => (some t0, e0)
       | some m =>
         if m < t0 then
           (some m, (l.find? (fun p => decide (p.2 = m))).map Prod.fst)
         else (some t0, e0)) := by
  intro l
  induction l with
  | nil => intro t0 e0; rfl
  | cons hd tl ih =>
    intro t0 e0
    obtain ⟨e1, t1⟩ := hd
    simp only [List.foldl_cons, List.map_cons]
    by_cases h1 : t1 < t0
    · rw [show mergeMinSlot (some t0, e0) e1 t1 = (some t1, some e1) by
        simp [mergeMinSlot, h1]]
      rw [ih t1 (some e1)]
      cases hm : listMin (tl.map Prod.snd) with
      | none =>
        simp only [listMin, hm]
        rw [if_pos h1]
        simp [List.find?]
      | some m' =>
        by_cases h2 : m' < t1
        · simp only [listMin, hm, if_neg (not_le.mpr h2)]
          rw [if_pos h2, if_pos (lt_trans h2 h1)]
          have hne : (decide ((t1 : Timestamp) = m')) = false :=
            decide_eq_false (ne_of_gt h2)
          simp [List.find?, hne]
        · simp only [listMin, hm, if_pos (not_lt.mp h2)]
          rw [if_neg h2, if_pos h1]
          simp [List.find?]
    · rw [show mergeMinSlot (some t0, e0) e1 t1 = (some t0, e0) by
        simp [mergeMinSlot, h1]]
      rw [ih t0 e0]
      cases hm : listMin (tl.map Prod.snd) with
      | none =>
        simp only [listMin, hm]
        rw [if_neg h1]
      | some m' =>
        by_cases h3 : m' < t0
        · have ht1 : m' < t1 := lt_of_lt_of_le h3 (not_lt.mp h1)
          simp only [listMin, hm, if_neg (not_le.mpr ht1)]
          rw [if_pos h3, if_pos h3]
          have hne : (decide ((t1 : Timestamp) = m')) = false :=
            decide_eq_false (ne_of_gt ht1)
          simp [List.find?, hne]
        · simp only [listMin, hm]
          rw [if_neg h3]
          by_cases ht : t1 ≤ m'
          · rw [if_pos ht, if_neg h1]
          · rw [if_neg ht, if_neg h3]

lemma mergeMinSlot_foldl_none :
    ∀ (l : List (String × Timestamp)),
    List.foldl (fun s p => mergeMinSlot s p.1 p.2) (none, none) l =
      (match listMin (l.map Prod.snd) with
       | none => ((none : Option Timestamp), (none : Option String))
       | some m =>
         (some m, (l.find? (fun p => decide (p.2 = m))).map Prod.fst)) := by
  intro l
  cases l with
  | nil => rfl
  | cons hd tl =>
    obtain ⟨e1, t1⟩ := hd
    simp only [List.foldl_cons, List.map_cons]
    rw [show mergeMinSlot (none, none) e1 t1 = (some t1, some e1) from rfl]
    rw [mergeMinSlot_foldl_some tl t1 (some e1)]
    cases hm : listMin (tl.map Prod.snd) with
    | none =>
      simp only [listMin, hm]
      simp [List.find?]
    | some m' =>
      by_cases h2 : m' < t1
      · simp only [listMin, hm, if_neg (not_le.mpr h2)]
        rw [if_pos h2]
        have hne : (decide ((t1 : Timestamp) = m')) = false :=
          decide_eq_false (ne_of_gt h2)
        simp [List.find?, hne]
      · simp only [listMin, hm, if_pos (not_lt.mp h2)]
        rw [if_neg h2]
        simp [List.find?]

lemma globalTxUpdate_slots (e : String) (t : Timestamp) (d : StreamLatencyData) :
    ((globalTxUpdate e t d).transaction_timestamp,
     (globalTxUpdate e t d).transaction_endpoint)
      = mergeMinSlot (d.transaction_timestamp, d.transaction_endpoint) e t := by
  cases h : d.transaction_timestamp with
  | none => simp [globalTxUpdate, mergeMinSlot, h]
  | some cur =>
    by_cases hlt : t < cur <;> simp [globalTxUpdate, mergeMinSlot, h, hlt]

lemma globalAccountUpdate_slots (e : String) (t : Timestamp)
    (d : StreamLatencyData) :
    ((globalAccountUpdate e t d).account_timestamp,
     (globalAccountUpdate e t d).account_endpoint)
      = mergeMinSlot (d.account_timestamp, d.account_endpoint) e t := by
  cases h : d.account_timestamp with
  | none => simp [globalAccountUpdate, mergeMinSlot, h]
  | some cur =>
    by_cases hlt : t < cur <;> simp [globalAccountUpdate, mergeMinSlot, h, hlt]

lemma runGlobalTx_slots :
    ∀ (l : List (String × Timestamp)) (d : StreamLatencyData),
    ((List.foldl (fun d p => globalTxUpdate p.1 p.2 d) d l).transaction_timestamp,
     (List.foldl (fun d p => globalTxUpdate p.1 p.2 d) d l).transaction_endpoint)
      = List.foldl (fun s p => mergeMinSlot s p.1 p.2)
          (d.transaction_timestamp, d.transaction_endpoint) l := by
  intro l
  induction l with
  | nil => intro d; rfl
  | cons hd tl ih =>
    intro d
    simp only [List.foldl_cons]
    rw [ih (globalTxUpdate hd.1 hd.2 d), globalTxUpdate_slots]

lemma runGlobalAccount_slots :
    ∀ (l : List (String × Timestamp)) (d : StreamLatencyData),
    ((List.foldl (fun d p => globalAccountUpdate p.1 p.2 d) d l).account_timestamp,
     (List.foldl (fun d p => globalAccountUpdate p.1 p.2 d) d l).account_endpoint)
      = List.foldl (fun s p => mergeMinSlot s p.1 p.2)
          (d.account_timestamp, d.account_endpoint) l := by
  intro l
  induction l with
  | nil => intro d; rfl
  | cons hd tl ih =>
    intro d
    simp only [List.foldl_cons]
    rw [ih (globalAccountUpdate hd.1 hd.2 d), globalAccountUpdate_slots]

/-- Claim C2 (counterexample): the stored endpoint of the global dual-stream
merge is NOT independent of submission order. Two endpoints submitting the
same (tied) minimum timestamp in the two possible orders leave different
endpoint names in the record, because the merge replaces only on strictly
earlier timestamps. -/
theorem claim_C2_counterexample :
    List.Perm [("A", (5 : Timestamp)), ("B", 5)] [("B", 5), ("A", 5)]
    ∧ (runGlobalTx "S" [("A", 5), ("B", 5)]).transaction_endpoint = some "A"
    ∧ (runGlobalTx "S" [("B", 5), ("A", 5)]).transaction_endpoint = some "B"
    ∧ (runGlobalAccount "S" [("A", 5), ("B", 5)]).account_endpoint = some "A"
    ∧ (runGlobalAccount "S" [("B", 5), ("A", 5)]).account_endpoint = some "B"
    ∧ some "A" ≠ some "B" :=
  ⟨List.Perm.swap _ _ _, by decide, by decide, by decide, by decide, by decide⟩

/-- Claim C2 (amended): for any nonempty sequence of updates to one
signature's transaction (resp. account) slot of the global dual-stream
tracker, the final stored timestamp equals the minimum of all submitted
timestamps (this much is independent of submission order), and the stored
endpoint name is the endpoint of the first submission in the sequence that
attains that minimum; when a unique endpoint attains the minimum this is the
endpoint that submitted it. -/
theorem claim_C2_amended (sig : String) (l : List (String × Timestamp))
    (h : l ≠ []) :
    ∃ m, listMin (l.map Prod.snd) = some m
      ∧ m ∈ l.map Prod.snd
      ∧ (∀ t ∈ l.map Prod.snd, m ≤ t)
      ∧ (runGlobalTx sig l).transaction_timestamp = some m
      ∧ (runGlobalTx sig l).transaction_endpoint
          = (l.find? (fun p => decide (p.2 = m))).map Prod.fst
      ∧ (∃ p, l.find? (fun p => decide (p.2 = m)) = some p ∧ p ∈ l ∧ p.2 = m)
      ∧ (runGlobalAccount sig l).account_timestamp = some m
      ∧ (runGlobalAccount sig l).account_endpoint
          = (l.find? (fun p => decide (p.2 = m))).map Prod.fst := by
  have hmap : l.map Prod.snd ≠ [] := by
    intro hc
    exact h (List.map_eq_nil_iff.mp hc)
  obtain ⟨m, hm, hmem⟩ := listMin_mem _ hmap
  have hle := listMin_le _ m hm
  have htx := runGlobalTx_slots l (newLatencyData sig)
  have hac := runGlobalAccount_slots l (newLatencyData sig)
  simp only [newLatencyData] at htx hac
  rw [mergeMinSlot_foldl_none l, hm] at htx hac
  have htx1 := congrArg Prod.fst htx
  have htx2 := congrArg Prod.snd htx
  have hac1 := congrArg Prod.fst hac
  have hac2 := congrArg Prod.snd hac
  simp only at htx1 htx2 hac1 hac2
  obtain ⟨p, hp1, hp2⟩ := List.mem_map.mp hmem
  have hfind : (l.find? (fun p => decide (p.2 = m))).isSome :=
    List.find?_isSome.mpr ⟨p, hp1, by simp [hp2]⟩
  obtain ⟨q, hq⟩ := Option.isSome_iff_exists.mp hfind
  refine ⟨m, hm, hmem, hle, htx1, htx2, ⟨q, hq, ?_, ?_⟩, hac1, hac2⟩
  · exact List.mem_of_find?_eq_some hq
  · have hq' := List.find?_some hq
    simpa using hq'

/-- Witness instantiating `claim_C2_amended` at a concrete update sequence. -/
theorem claim_C2_witness :
    (runGlobalTx "S" [("A", 5), ("B", 3)]).transaction_timestamp
      = some (3 : Timestamp) := by
  obtain ⟨m, hm, -, -, htx, -, -, -, -⟩ :=
    claim_C2_amended "S" [("A", 5), ("B", 3)] (by decide)
  have h3 : listMin ([("A", (5 : Timestamp)), ("B", 3)].map Prod.snd)
      = some 3 := by decide
  have : m = 3 := by
    have := h3.symm.trans hm
    injection this with h'
    exact h'.symm
  rw [this] at htx
  exact htx

/-- Claim C3 (counterexample): in the local per-endpoint tracker a later
observation of the same kind for the same signature does NOT leave the stored
timestamp unchanged: the timestamp slot is overwritten on every observation. -/
theorem claim_C3_counterexample :
    (localTxUpdate "A" 9 (localTxUpdate "A" 5
        (newLatencyData "S"))).transaction_timestamp = some 9
    ∧ (localAccountUpdate "A" 9 (localAccountUpdate "A" 5
        (newLatencyData "S"))).account_timestamp = some 9
    ∧ some (9 : Timestamp) ≠ some (5 : Timestamp) :=
  ⟨by decide, by decide, by decide⟩

/-- Claim C3 (amended): in the local per-endpoint tracker, every observation
overwrites the timestamp slot of its kind (last sighting wins for the
timestamp), while the endpoint-name field of that kind is set only if unset
(first sighting wins for the endpoint name); the slots of the other kind and
the signature are untouched. -/
theorem claim_C3_amended (e : String) (t : Timestamp) (d : StreamLatencyData) :
    (localTxUpdate e t d).transaction_timestamp = some t
    ∧ (localTxUpdate e t d).transaction_endpoint
        = some (d.transaction_endpoint.getD e)
    ∧ (localTxUpdate e t d).account_timestamp = d.account_timestamp
    ∧ (localTxUpdate e t d).account_endpoint = d.account_endpoint
    ∧ (localTxUpdate e t d).signature = d.signature
    ∧ (localAccountUpdate e t d).account_timestamp = some t
    ∧ (localAccountUpdate e t d).account_endpoint
        = some (d.account_endpoint.getD e)
    ∧ (localAccountUpdate e t d).transaction_timestamp = d.transaction_timestamp
    ∧ (localAccountUpdate e t d).transaction_endpoint = d.transaction_endpoint
    ∧ (localAccountUpdate e t d).signature = d.signature := by
  cases hte : d.transaction_endpoint <;> cases hae : d.account_endpoint <;>
    simp [localTxUpdate, localAccountUpdate, hte, hae]

/-- Claim C4 (code bug): the report trigger compares the completed-runner
counter to the fixed literal 1 instead of the configured endpoint count. With
1 configured dual-stream endpoint the report is never produced; with 3, it is
produced when the second runner terminates (0-based index 1), while the last
runner (index 2) is still running, contradicting the specified behaviour of
firing once after the last of the configured endpoints. The spec's design
notes (section 9) call this out as the latent defect of the observed source. -/
theorem claim_C4_code_bug :
    globalPrintTotal 1 = 0
    ∧ globalPrintTotal 2 = 1
    ∧ globalPrintTotal 3 = 1
    ∧ shutdownCountTrigger 1 = true
    ∧ shutdownCountTrigger (3 - 1) = false
    ∧ ∀ endpointCount, 2 ≤ endpointCount →
        ((List.range endpointCount).filter
          (fun k => shutdownCountTrigger k)) = [1] := by
    refine ⟨rfl, rfl, rfl, rfl, rfl, ?_⟩
    intro n hn
    induction n with
    | zero => omega
    | succ k ih =>
      rcases Nat.lt_or_ge k 2 with hk | hk
      · interval_cases k
        · omega
        · decide
      · rw [List.range_succ, List.filter_append, ih (by omega)]
        have : shutdownCountTrigger k = false := by
          simp [shutdownCountTrigger]; omega
        simp [this]

/-- Witness instantiating the universally quantified part of
`claim_C4_code_bug` at a concrete endpoint count. -/
theorem claim_C4_witness :
    2 ≤ 5
    ∧ ((List.range 5).filter (fun k => shutdownCountTrigger k)) = [1] :=
  ⟨by decide, (claim_C4_code_bug.2.2.2.2.2) 5 (by decide)⟩

/-- Claim C5 (counterexample): in the channel state with no receiver currently
subscribed, the runner's unwrapped send panics, so the send does NOT tolerate
every channel state named by the claim. -/
theorem claim_C5_counterexample :
    broadcastSendUnwrap ⟨0, false⟩ = none
    ∧ broadcastSendUnwrap ⟨0, true⟩ = none := by
  exact ⟨rfl, rfl⟩

/-- Claim C5 (amended): the runner's unwrapped send of the shutdown signal
does not panic in every channel state with at least one subscribed receiver,
including states where the signal was already sent by another runner; in the
program this precondition holds at the send site because the sending runner's
own receiver subscription is still live there. With no receiver subscribed
the unwrap would panic. -/
theorem claim_C5_amended (s : BroadcastState) (h : 0 < s.receiverCount) :
    broadcastSendUnwrap s = some { s with alreadySent := true } := by
  have : ¬ s.receiverCount = 0 := Nat.pos_iff_ne_zero.mp h
  simp [broadcastSendUnwrap, broadcastSend, this, Except.toOption]

/-- Witness instantiating `claim_C5_amended` in the already-sent state, the
double-send situation the spec singles out. -/
theorem claim_C5_witness :
    0 < (1 : Nat)
    ∧ broadcastSendUnwrap ⟨1, true⟩ = some ⟨1, true⟩ :=
  ⟨by decide, claim_C5_amended ⟨1, true⟩ (by decide)⟩

lemma globalStatsStep_diffs_len (acc : GlobalStatsAcc) (d : StreamLatencyData)
    (h : acc.timing_diffs.length = acc.both_received) :
    (globalStatsStep acc d).timing_diffs.length
      = (globalStatsStep acc d).both_received := by
  cases hae : d.account_endpoint <;> cases hte : d.transaction_endpoint <;>
    cases hat : d.account_timestamp <;> cases htt : d.transaction_timestamp <;>
      simp [globalStatsStep, hae, hte, hat, htt, h]

lemma globalStatsAcc_diffs_len :
    ∀ (tracker : List (String × StreamLatencyData)) (acc : GlobalStatsAcc),
    acc.timing_diffs.length = acc.both_received →
    (tracker.foldl (fun a p => globalStatsStep a p.2) acc).timing_diffs.length
      = (tracker.foldl (fun a p => globalStatsStep a p.2) acc).both_received := by
  intro tracker
  induction tracker with
  | nil => intro acc h; exact h
  | cons hd tl ih =>
    intro acc h
    simp only [List.foldl_cons]
    exact ih _ (globalStatsStep_diffs_len acc hd.2 h)

/-- Claim C7: neither statistics reporter ever divides by a value that is not
positive on its execution path, and with an empty tracker (no qualifying
signature) no division is executed at all: the win-percentage divisions only
run once per entry of a win map, which forces a nonempty tracker, and the
timing statistics are guarded by `both_received > 0`. -/
theorem claim_C7 :
    (∀ (tracker : List (String × StreamLatencyData)) d,
        d ∈ print_global_statistics_divisors tracker → 0 < d)
    ∧ (∀ (latencies : List (String × StreamLatencyData)) d,
        d ∈ print_stream_statistics_divisors latencies → 0 < d)
    ∧ print_global_statistics_divisors [] = []
    ∧ print_stream_statistics_divisors [] = [] := by
  refine ⟨?_, ?_, rfl, rfl⟩
  · intro tracker d hd
    simp only [print_global_statistics_divisors, List.mem_append] at hd
    have hlen : (globalStatsAcc tracker).timing_diffs.length
        = (globalStatsAcc tracker).both_received :=
      globalStatsAcc_diffs_len tracker ⟨[], [], 0, 0, 0, []⟩ rfl
    rcases hd with (hd | hd) | hd
    · obtain ⟨a, -, hda⟩ := List.mem_map.mp hd
      subst hda
      cases tracker with
      | nil =>
        exfalso
        revert hd
        simp [globalStatsAcc]
      | cons x xs => simp
    · obtain ⟨a, -, hda⟩ := List.mem_map.mp hd
      subst hda
      cases tracker with
      | nil =>
        exfalso
        revert hd
        simp [globalStatsAcc]
      | cons x xs => simp
    · by_cases hb : 0 < (globalStatsAcc tracker).both_received
      · rw [if_pos hb] at hd
        simp only [List.mem_cons, List.not_mem_nil, or_false] at hd
        rcases hd with h | h | h | h
        · rw [h, hlen]; exact hb
        · rw [h]; exact Nat.zero_lt_succ _
        · rw [h]; exact hb
        · rw [h]; exact hb
      · rw [if_neg hb] at hd
        cases hd
  · intro latencies d hd
    simp only [print_stream_statistics_divisors] at hd
    by_cases hb : 0 < streamStatsBoth latencies
    · rw [if_pos hb] at hd
      simp only [List.mem_cons, List.not_mem_nil, or_false] at hd
      rcases hd with h | h | h | h
      · rw [h]; exact hb
      · rw [h]; exact Nat.zero_lt_succ _
      · rw [h]; exact hb
      · rw [h]; exact hb
    · rw [if_neg hb] at hd
      cases hd

/-- Witness instantiating `claim_C7` on a concrete one-record tracker with
both timestamps present. -/
theorem claim_C7_witness :
    (1 ∈ print_global_statistics_divisors
        [("S", ⟨"S", some 5, some 7, some "A", some "A"⟩)])
    ∧ (1 ∈ print_stream_statistics_divisors
        [("S", ⟨"S", some 5, some 7, some "A", some "A"⟩)])
    ∧ 0 < 1 :=
  ⟨by decide,
   by decide,
   claim_C7.1 [("S", ⟨"S", some 5, some 7, some "A", some "A"⟩)] 1 (by decide)⟩

lemma localAccountUpdate_tt (e : String) (t : Timestamp)
    (d : StreamLatencyData) :
    (localAccountUpdate e t d).transaction_timestamp
      = d.transaction_timestamp := by
  cases h : d.account_endpoint <;> simp [localAccountUpdate, h]

/-- Claim C9: an account-update message whose account info carries no
transaction signature increments only the runner-internal account-update
counter; the local tracker, the global tracker, the log and every other state
component are left unchanged. -/
theorem claim_C9 (endpoint_name : String) (now : Timestamp)
    (account_msg : SubscribeUpdateAccount) (info : SubscribeUpdateAccountInfo)
    (s : YellowstoneState)
    (h1 : account_msg.account = some info)
    (h2 : info.txn_signature = none) :
    processAccountUpdate endpoint_name now account_msg s
      = some { s with account_update_count := s.account_update_count + 1 } := by
  simp [processAccountUpdate, h1, h2]

/-- Witness instantiating `claim_C9` at a concrete signatureless account
update. -/
theorem claim_C9_witness :
    ((⟨some ⟨"p", none⟩⟩ : SubscribeUpdateAccount).account = some ⟨"p", none⟩)
    ∧ ((⟨"p", none⟩ : SubscribeUpdateAccountInfo).txn_signature = none)
    ∧ processAccountUpdate "e" 5 ⟨some ⟨"p", none⟩⟩ initialYellowstoneState
        = some { initialYellowstoneState with
                   account_update_count :=
                     initialYellowstoneState.account_update_count + 1 } :=
  ⟨rfl, rfl,
   claim_C9 "e" 5 ⟨some ⟨"p", none⟩⟩ ⟨"p", none⟩ initialYellowstoneState
     rfl rfl⟩

/-- Claim C10 (counterexample): a short encoding does NOT always panic the
runner. On the eleventh account update (post-increment counter 11 > 10) with
no transaction timestamp recorded for the signature, no slicing log path
executes, and the runner processes a 3-character signature and a 1-character
account key without panicking. -/
theorem claim_C10_counterexample :
    ("abc" : String).length < 8
    ∧ ("p" : String).length < 8
    ∧ (processAccountUpdate "e" 5 ⟨some ⟨"p", some "abc"⟩⟩
        { initialYellowstoneState with
            account_update_count := 10 }).isSome = true := by
  refine ⟨by decide, by decide, by decide⟩

/-- Claim C10 (amended): processing an account update carrying a transaction
signature panics exactly when a slicing log path executes on a short string:
when the post-increment account-update count is at most 10 and the encoded
account key or signature is shorter than 8 characters, or when the local
record already holds a transaction timestamp for that signature and the
signature is shorter than 8 characters; on every other input, short encodings
are processed without panic. -/
theorem claim_C10_amended (endpoint_name account_key sigStr : String)
    (now : Timestamp) (s : YellowstoneState) :
    processAccountUpdate endpoint_name now
        ⟨some ⟨account_key, some sigStr⟩⟩ s = none
    ↔ ((s.account_update_count + 1 ≤ 10
          ∧ (account_key.length < 8 ∨ sigStr.length < 8))
       ∨ ((getOr s.stream_latencies sigStr).transaction_timestamp.isSome
          ∧ sigStr.length < 8)) := by
  by_cases hA : s.account_update_count + 1 ≤ 10
      ∧ (account_key.length < 8 ∨ sigStr.length < 8)
  · simp [processAccountUpdate, hA]
  · cases htt : (getOr s.stream_latencies sigStr).transaction_timestamp with
    | none =>
      have h2 : (localAccountUpdate endpoint_name now
          (getOr s.stream_latencies sigStr)).transaction_timestamp = none := by
        rw [localAccountUpdate_tt, htt]
      simp only [processAccountUpdate, hA, h2, htt, if_neg hA]
      simp
    | some t =>
      have h2 : (localAccountUpdate endpoint_name now
          (getOr s.stream_latencies sigStr)).transaction_timestamp = some t := by
        rw [localAccountUpdate_tt, htt]
      by_cases hs : sigStr.length < 8
      · simp only [processAccountUpdate, hA, h2, htt, hs, if_neg hA, if_pos hs]
        simp [hs]
      · simp only [processAccountUpdate, hA, h2, htt, if_neg hA, if_neg hs]
        simp [hs]

/-- Witness instantiating `claim_C10_amended` on a concrete panicking input
(first-ten log path with a 3-character signature). -/
theorem claim_C10_witness :
    processAccountUpdate "e" 5 ⟨some ⟨"pubkey00", some "abc"⟩⟩
      initialYellowstoneState = none :=
  (claim_C10_amended "e" "pubkey00" "abc" 5 initialYellowstoneState).mpr
    (Or.inl ⟨by decide, Or.inr (by decide)⟩)

/-- Claim C8: the shredstream subscription request can carry no filter (every
value of its type is the empty request), the account-key extraction is the
same for legacy and v0 messages, and a decoded transaction with at least one
signature changes the runner state — log entry, comparator add, counter
increment — if and only if the watched account appears among its account
keys; a non-matching transaction leaves the state exactly unchanged. -/
theorem claim_C8 (account endpoint_name : String) (start_time : Timestamp)
    (s : ShredState) (tx : ShredTx) (now : Timestamp)
    (sigStr : String) (sigRest : List String)
    (hsig : tx.signatures = sigStr :: sigRest) :
    (∀ r : SubscribeEntriesRequest, r = shredSubscribeRequest)
    ∧ (∀ ks : List String, (VersionedMessage.legacy ks).keysOf = ks
        ∧ (VersionedMessage.v0 ks).keysOf = ks)
    ∧ (account ∉ tx.message.keysOf →
        processShredTx account endpoint_name start_time s (tx, now) = some s)
    ∧ (account ∈ tx.message.keysOf →
        processShredTx account endpoint_name start_time s (tx, now)
          = some { s with
              log_entries := s.log_entries ++ [(now, endpoint_name, sigStr)]
              comp := s.comp.add endpoint_name ⟨now, sigStr, start_time⟩
              transaction_count := s.transaction_count + 1 }) := by
  refine ⟨fun r => rfl, fun ks => ⟨rfl, rfl⟩, ?_, ?_⟩
  · intro h
    simp [processShredTx, h]
  · intro h
    simp [processShredTx, h, hsig]

/-- Witness instantiating `claim_C8` on a concrete matching transaction. -/
theorem claim_C8_witness :
    ((⟨["sig1"], .legacy ["w", "acct"]⟩ : ShredTx).signatures = "sig1" :: [])
    ∧ ("acct" ∈ (VersionedMessage.legacy ["w", "acct"]).keysOf)
    ∧ processShredTx "acct" "e" 0 initialShredState
        (⟨["sig1"], .legacy ["w", "acct"]⟩, 7)
        = some { initialShredState with
            log_entries := initialShredState.log_entries ++ [(7, "e", "sig1")]
            comp := initialShredState.comp.add "e" ⟨7, "sig1", 0⟩
            transaction_count := initialShredState.transaction_count + 1 } :=
  ⟨rfl, by decide,
   (claim_C8 "acct" "e" 0 initialShredState ⟨["sig1"], .legacy ["w", "acct"]⟩
      7 "sig1" [] rfl).2.2.2 (by decide)⟩

/-- Claim C6 (counterexample): a message whose payload decodes to a
transaction update with the inner transaction field missing panics the
dual-stream runner (the `unwrap` at yellowstone_accounts.rs line 167) and
kills the whole run, instead of being logged and dropped. -/
theorem claim_C6_counterexample :
    processTransactionUpdate 1 "acct" "e" 0 5 ⟨some ⟨none⟩⟩
      initialYellowstoneState = none
    ∧ yellowstoneRun 1 "acct" "e" 0
        [(UpdateOneof.transaction ⟨some ⟨none⟩⟩, 5)] = none :=
  ⟨rfl, rfl⟩

/-- Claim C6 (amended): decode failures are non-fatal in the shredstream
variant (the entry is dropped with no tracker or counter change and the loop
continues) and a transaction update with its outer transaction field missing
is skipped without any state change in the dual-stream variant, whose loop
then continues with the next message; but a dual-stream transaction update
whose inner transaction or message field is missing panics the runner task
via `unwrap`. -/
theorem claim_C6_amended :
    (∀ (n : Nat) (account endpoint_name : String) (start_time now : Timestamp)
        (s : YellowstoneState),
        processTransactionUpdate n account endpoint_name start_time now
          ⟨none⟩ s = some s)
    ∧ (∀ (n : Nat) (account endpoint_name : String)
        (start_time now : Timestamp) (s : YellowstoneState),
        processTransactionUpdate n account endpoint_name start_time now
          ⟨some ⟨none⟩⟩ s = none)
    ∧ (∀ (n : Nat) (account endpoint_name : String)
        (start_time now : Timestamp) (s : YellowstoneState)
        (sigs : List String),
        processTransactionUpdate n account endpoint_name start_time now
          ⟨some ⟨some ⟨sigs, none⟩⟩⟩ s = none)
    ∧ (∀ (n : Nat) (account endpoint_name : String) (start_time : Timestamp)
        (s : ShredState) (slot : Nat),
        s.running = true → s.comp.get_valid_count ≠ n →
        shredStep n account endpoint_name start_time s ⟨slot, none⟩ = some s)
    ∧ (∀ (n : Nat) (account endpoint_name : String)
        (start_time now : Timestamp) (rest : List (UpdateOneof × Timestamp)),
        yellowstoneRun n account endpoint_name start_time
          ((UpdateOneof.transaction ⟨none⟩, now) :: rest)
          = yellowstoneRun n account endpoint_name start_time rest) := by
  refine ⟨?_, ?_, ?_, ?_, ?_⟩
  · intro n account endpoint_name start_time now s
    rfl
  · intro n account endpoint_name start_time now s
    rfl
  · intro n account endpoint_name start_time now s sigs
    rfl
  · intro n account endpoint_name start_time s slot h1 h2
    simp [shredStep, processEntry, h1, h2]
  · intro n account endpoint_name start_time now rest
    rfl

/-- Witness instantiating the hypotheses of `claim_C6_amended` (the
shredstream decode-failure conjunct) at a concrete state. -/
theorem claim_C6_witness :
    (initialShredState.running = true)
    ∧ (initialShredState.comp.get_valid_count ≠ 1)
    ∧ shredStep 1 "acct" "e" 0 initialShredState ⟨3, none⟩
        = some initialShredState :=
  ⟨rfl, by decide,
   claim_C6_amended.2.2.2.1 1 "acct" "e" 0 initialShredState 3 rfl (by decide)⟩

lemma addObservation_keys :
    ∀ (recs : List (String × List (String × Timestamp)))
      (e sig : String) (ts : Timestamp),
    (addObservation recs e sig ts).map Prod.fst
      = insertSig (recs.map Prod.fst) sig := by
  intro recs
  induction recs with
  | nil => intro e sig ts; simp [addObservation, insertSig]
  | cons hd rest ih =>
    intro e sig ts
    obtain ⟨s, obs⟩ := hd
    by_cases hss : s = sig
    · subst hss
      simp only [addObservation, if_pos rfl]
      by_cases hany : obs.any (fun p => decide (p.1 = e)) = true
      · rw [if_pos hany]; simp [insertSig]
      · rw [if_neg hany]; simp [insertSig]
    · simp only [addObservation, if_neg hss]
      by_cases hm : sig ∈ rest.map Prod.fst
      · simp [ih, insertSig, hm, hss, Ne.symm hss]
      · simp [ih, insertSig, hm, hss, Ne.symm hss]

lemma comp_add_count (c : Comparator) (e : String) (d : TransactionData) :
    (c.add e d).get_valid_count
      = (insertSig (c.records.map Prod.fst) d.signature).length := by
  have h := congrArg List.length
    (addObservation_keys c.records e d.signature d.timestamp)
  simpa [Comparator.add, Comparator.get_valid_count] using h

lemma comp_add_keys (c : Comparator) (e : String) (d : TransactionData) :
    (c.add e d).records.map Prod.fst
      = insertSig (c.records.map Prod.fst) d.signature :=
  addObservation_keys c.records e d.signature d.timestamp

lemma get_valid_count_eq_keys_length (c : Comparator) :
    c.get_valid_count = (c.records.map Prod.fst).length := by
  simp [Comparator.get_valid_count]

lemma insertSig_length (seen : List String) (sig : String) :
    (insertSig seen sig).length
      = if sig ∈ seen then seen.length else seen.length + 1 := by
  by_cases h : sig ∈ seen <;> simp [insertSig, h]

lemma foldl_insertSig_le :
    ∀ (xs : List String) (l : List String),
    l.length ≤ (xs.foldl insertSig l).length := by
  intro xs
  induction xs with
  | nil => intro l; exact le_refl _
  | cons x rest ih =>
    intro l
    refine le_trans ?_ (ih (insertSig l x))
    rw [insertSig_length]
    split <;> omega

lemma yellowstoneRun_frozen (n : Nat) (account e : String) (st : Timestamp) :
    ∀ (msgs : List (UpdateOneof × Timestamp)) (s : YellowstoneState),
    s.running = false →
    msgs.foldlM (yellowstoneStep n account e st) s = some s := by
  intro msgs
  induction msgs with
  | nil => intro s h; rfl
  | cons m rest ih =>
    intro s h
    have hstep : yellowstoneStep n account e st s m = some s := by
      simp [yellowstoneStep, h]
    rw [List.foldlM_cons, hstep]
    exact ih s h

lemma yellowstoneRun_go (n : Nat) (account e : String) (st : Timestamp) :
    ∀ (evs : List (String × Timestamp)) (s : YellowstoneState),
    s.running = true → s.shutdown_sends = 0 →
    s.comp.get_valid_count < n →
    ∃ s', (txStream account evs).foldlM
            (yellowstoneStep n account e st) s = some s'
      ∧ (n ≤ ((evs.map Prod.fst).foldl insertSig
              (s.comp.records.map Prod.fst)).length →
            s'.shutdown_sends = 1 ∧ s'.running = false)
      ∧ (((evs.map Prod.fst).foldl insertSig
              (s.comp.records.map Prod.fst)).length < n →
            s'.shutdown_sends = 0 ∧ s'.running = true) := by
  intro evs
  induction evs with
  | nil =>
    intro s hr hs hc
    refine ⟨s, rfl, ?_, fun _ => ⟨hs, hr⟩⟩
    intro hn
    rw [get_valid_count_eq_keys_length] at hc
    simp only [List.map_nil, List.foldl_nil] at hn
    omega
  | cons ev rest ih =>
    intro s hr hs hc
    obtain ⟨sig, ts⟩ := ev
    have hkeys : (s.comp.add e ⟨ts, sig, st⟩).records.map Prod.fst
        = insertSig (s.comp.records.map Prod.fst) sig :=
      comp_add_keys s.comp e ⟨ts, sig, st⟩
    have hcount : (s.comp.add e ⟨ts, sig, st⟩).get_valid_count
        = (insertSig (s.comp.records.map Prod.fst) sig).length :=
      comp_add_count s.comp e ⟨ts, sig, st⟩
    by_cases hfire :
        (s.comp.add e ⟨ts, sig, st⟩).get_valid_count = n
    · -- the add reaches the target: this step fires and freezes the loop
      have hstep : yellowstoneStep n account e st s (matchedTxMsg account sig, ts)
          = some { s with
              stream_latencies := updateEntry s.stream_latencies sig
                (localTxUpdate e ts)
              global_tracker := updateEntry s.global_tracker sig
                (globalTxUpdate e ts)
              log_entries := s.log_entries ++ [(ts, e ++ "_TX", sig)]
              comp := s.comp.add e ⟨ts, sig, st⟩
              shutdown_sends := s.shutdown_sends + 1
              running := false } := by
        simp [yellowstoneStep, hr, matchedTxMsg, processTransactionUpdate,
          hfire]
      have hfold : (txStream account ((sig, ts) :: rest)).foldlM
            (yellowstoneStep n account e st) s
          = (txStream account rest).foldlM (yellowstoneStep n account e st)
              { s with
                stream_latencies := updateEntry s.stream_latencies sig
                  (localTxUpdate e ts)
                global_tracker := updateEntry s.global_tracker sig
                  (globalTxUpdate e ts)
                log_entries := s.log_entries ++ [(ts, e ++ "_TX", sig)]
                comp := s.comp.add e ⟨ts, sig, st⟩
                shutdown_sends := s.shutdown_sends + 1
                running := false } := by
        rw [show txStream account ((sig, ts) :: rest)
              = (matchedTxMsg account sig, ts) :: txStream account rest
            from rfl,
          List.foldlM_cons, hstep]
        rfl
      have hfrozen := yellowstoneRun_frozen n account e st
        (txStream account rest)
        { s with
          stream_latencies := updateEntry s.stream_latencies sig
            (localTxUpdate e ts)
          global_tracker := updateEntry s.global_tracker sig
            (globalTxUpdate e ts)
          log_entries := s.log_entries ++ [(ts, e ++ "_TX", sig)]
          comp := s.comp.add e ⟨ts, sig, st⟩
          shutdown_sends := s.shutdown_sends + 1
          running := false } rfl
      refine ⟨_, hfold.trans hfrozen, fun _ => ⟨by simp [hs], rfl⟩, ?_⟩
      intro hlt
      exfalso
      have hmono := foldl_insertSig_le (rest.map Prod.fst)
        (insertSig (s.comp.records.map Prod.fst) sig)
      rw [hcount] at hfire
      simp only [List.map_cons, List.foldl_cons] at hlt
      omega
    · -- the add stays below the target: recurse
      have hlt1 : (s.comp.add e ⟨ts, sig, st⟩).get_valid_count < n := by
        rw [hcount] at hfire ⊢
        rw [insertSig_length] at hfire ⊢
        rw [get_valid_count_eq_keys_length] at hc
        by_cases hmem : sig ∈ s.comp.records.map Prod.fst
        · rw [if_pos hmem]
          exact hc
        · rw [if_neg hmem] at hfire ⊢
          omega
      have hstep : yellowstoneStep n account e st s (matchedTxMsg account sig, ts)
          = some { s with
              stream_latencies := updateEntry s.stream_latencies sig
                (localTxUpdate e ts)
              global_tracker := updateEntry s.global_tracker sig
                (globalTxUpdate e ts)
              log_entries := s.log_entries ++ [(ts, e ++ "_TX", sig)]
              comp := s.comp.add e ⟨ts, sig, st⟩
              transaction_count := s.transaction_count + 1 } := by
        simp [yellowstoneStep, hr, matchedTxMsg, processTransactionUpdate,
          hfire]
      have hfold : (txStream account ((sig, ts) :: rest)).foldlM
            (yellowstoneStep n account e st) s
          = (txStream account rest).foldlM (yellowstoneStep n account e st)
              { s with
                stream_latencies := updateEntry s.stream_latencies sig
                  (localTxUpdate e ts)
                global_tracker := updateEntry s.global_tracker sig
                  (globalTxUpdate e ts)
                log_entries := s.log_entries ++ [(ts, e ++ "_TX", sig)]
                comp := s.comp.add e ⟨ts, sig, st⟩
                transaction_count := s.transaction_count + 1 } := by
        rw [show txStream account ((sig, ts) :: rest)
              = (matchedTxMsg account sig, ts) :: txStream account rest
            from rfl,
          List.foldlM_cons, hstep]
        rfl
      obtain ⟨s', hrun, h1, h2⟩ := ih
        { s with
          stream_latencies := updateEntry s.stream_latencies sig
            (localTxUpdate e ts)
          global_tracker := updateEntry s.global_tracker sig
            (globalTxUpdate e ts)
          log_entries := s.log_entries ++ [(ts, e ++ "_TX", sig)]
          comp := s.comp.add e ⟨ts, sig, st⟩
          transaction_count := s.transaction_count + 1 }
        hr hs hlt1
      refine ⟨s', hfold.trans hrun, ?_, ?_⟩
      · intro hn
        refine h1 ?_
        simp only [List.map_cons, List.foldl_cons] at hn
        simpa [hkeys] using hn
      · intro hn
        refine h2 ?_
        simp only [List.map_cons, List.foldl_cons] at hn
        simpa [hkeys] using hn

lemma txsMatchedSigs_cons (account : String) (t : ShredTx × Timestamp)
    (rest : List (ShredTx × Timestamp)) :
    txsMatchedSigs account (t :: rest)
      = (if account ∈ t.1.message.keysOf then [t.1.signatures.headD ""] else [])
        ++ txsMatchedSigs account rest := by
  by_cases hm : account ∈ t.1.message.keysOf <;>
    simp [txsMatchedSigs, List.filter_cons, hm]

lemma processShredTx_keys (account e : String) (st : Timestamp)
    (s : ShredState) (t : ShredTx × Timestamp) (h : t.1.signatures ≠ []) :
    ∃ s1, processShredTx account e st s t = some s1
      ∧ s1.comp.records.map Prod.fst
          = (txsMatchedSigs account [t]).foldl insertSig
              (s.comp.records.map Prod.fst)
      ∧ s1.shutdown_sends = s.shutdown_sends
      ∧ s1.running = s.running := by
  by_cases hm : account ∈ t.1.message.keysOf
  · cases hsig : t.1.signatures with
    | nil => exact absurd hsig h
    | cons sg sgs =>
      refine ⟨{ s with
          log_entries := s.log_entries ++ [(t.2, e, sg)]
          comp := s.comp.add e ⟨t.2, sg, st⟩
          transaction_count := s.transaction_count + 1 }, ?_, ?_, rfl, rfl⟩
      · simp [processShredTx, hm, hsig]
      · have hk : (s.comp.add e ⟨t.2, sg, st⟩).records.map Prod.fst
            = insertSig (s.comp.records.map Prod.fst) sg :=
          comp_add_keys s.comp e ⟨t.2, sg, st⟩
        simp [txsMatchedSigs, hm, hsig, hk]
  · refine ⟨s, ?_, ?_, rfl, rfl⟩
    · simp [processShredTx, hm]
    · simp [txsMatchedSigs, hm]

lemma foldlM_txs_keys (account e : String) (st : Timestamp) :
    ∀ (txs : List (ShredTx × Timestamp)) (s : ShredState),
    (∀ t ∈ txs, t.1.signatures ≠ []) →
    ∃ s1, txs.foldlM (processShredTx account e st) s = some s1
      ∧ s1.comp.records.map Prod.fst
          = (txsMatchedSigs account txs).foldl insertSig
              (s.comp.records.map Prod.fst)
      ∧ s1.shutdown_sends = s.shutdown_sends
      ∧ s1.running = s.running := by
  intro txs
  induction txs with
  | nil =>
    intro s _
    exact ⟨s, rfl, by simp [txsMatchedSigs], rfl, rfl⟩
  | cons t rest ih =>
    intro s hwf
    obtain ⟨s1, hstep, hk1, hsend1, hrun1⟩ :=
      processShredTx_keys account e st s t (hwf t (List.mem_cons_self _ _))
    obtain ⟨s2, hfold, hk2, hsend2, hrun2⟩ :=
      ih s1 (fun u hu => hwf u (List.mem_cons_of_mem _ hu))
    refine ⟨s2, ?_, ?_, hsend2.trans hsend1, hrun2.trans hrun1⟩
    · rw [List.foldlM_cons, hstep]
      exact hfold
    · rw [hk2, hk1, txsMatchedSigs_cons, List.foldl_append]
      by_cases hm : account ∈ t.1.message.keysOf <;>
        simp [txsMatchedSigs, hm]

lemma foldlM_entries_keys (account e : String) (st : Timestamp) :
    ∀ (ents : List SolanaEntryT) (s : ShredState),
    (∀ se ∈ ents, ∀ t ∈ se.transactions, t.1.signatures ≠ []) →
    ∃ s1, ents.foldlM
        (fun st1 se =>
          se.transactions.foldlM (processShredTx account e st) st1) s
        = some s1
      ∧ s1.comp.records.map Prod.fst
          = ((ents.map (fun se => txsMatchedSigs account se.transactions)).flatten).foldl
              insertSig (s.comp.records.map Prod.fst)
      ∧ s1.shutdown_sends = s.shutdown_sends
      ∧ s1.running = s.running := by
  intro ents
  induction ents with
  | nil =>
    intro s _
    exact ⟨s, rfl, by simp, rfl, rfl⟩
  | cons se rest ih =>
    intro s hwf
    obtain ⟨s1, hstep, hk1, hsend1, hrun1⟩ :=
      foldlM_txs_keys account e st se.transactions s
        (hwf se (List.mem_cons_self _ _))
    obtain ⟨s2, hfold, hk2, hsend2, hrun2⟩ :=
      ih s1 (fun u hu => hwf u (List.mem_cons_of_mem _ hu))
    refine ⟨s2, ?_, ?_, hsend2.trans hsend1, hrun2.trans hrun1⟩
    · rw [List.foldlM_cons, hstep]
      exact hfold
    · rw [hk2, hk1]
      simp [List.foldl_append]

lemma processEntry_keys (account e : String) (st : Timestamp)
    (entry : ShredEntry) (s : ShredState)
    (hwf : ∀ t ∈ entryTxs entry, t.1.signatures ≠ []) :
    ∃ s1, processEntry account e st s entry = some s1
      ∧ s1.comp.records.map Prod.fst
          = (matchedSigs account entry).foldl insertSig
              (s.comp.records.map Prod.fst)
      ∧ s1.shutdown_sends = s.shutdown_sends
      ∧ s1.running = s.running := by
  cases hent : entry.entries with
  | none =>
    refine ⟨s, ?_, ?_, rfl, rfl⟩
    · simp [processEntry, hent]
    · simp [matchedSigs, hent]
  | some entries =>
    have hwf' : ∀ se ∈ entries, ∀ t ∈ se.transactions,
        t.1.signatures ≠ [] := by
      intro se hse t ht
      refine hwf t ?_
      simp only [entryTxs, hent]
      exact List.mem_flatten.mpr ⟨se.transactions, List.mem_map_of_mem _ hse, ht⟩
    obtain ⟨s1, hfold, hk, hsend, hrun⟩ :=
      foldlM_entries_keys account e st entries s hwf'
    refine ⟨s1, ?_, ?_, hsend, hrun⟩
    · simp only [processEntry, hent]
      exact hfold
    · rw [hk]
      simp [matchedSigs, hent]

lemma processShredTx_preserves (account e : String) (st : Timestamp)
    (s : ShredState) (t : ShredTx × Timestamp) (s1 : ShredState)
    (h : processShredTx account e st s t = some s1) :
    s1.shutdown_sends = s.shutdown_sends ∧ s1.running = s.running := by
  by_cases hm : account ∈ t.1.message.keysOf
  · cases hsig : t.1.signatures with
    | nil => simp [processShredTx, hm, hsig] at h
    | cons sg sgs =>
      simp only [processShredTx, if_pos hm, hsig, Option.some.injEq] at h
      subst h
      exact ⟨rfl, rfl⟩
  · simp only [processShredTx, if_neg hm, Option.some.injEq] at h
    subst h
    exact ⟨rfl, rfl⟩

lemma foldlM_txs_preserves (account e : String) (st : Timestamp) :
    ∀ (txs : List (ShredTx × Timestamp)) (s s1 : ShredState),
    txs.foldlM (processShredTx account e st) s = some s1 →
    s1.shutdown_sends = s.shutdown_sends ∧ s1.running = s.running := by
  intro txs
  induction txs with
  | nil =>
    intro s s1 h
    injection h with h'
    subst h'
    exact ⟨rfl, rfl⟩
  | cons t rest ih =>
    intro s s1 h
    rw [List.foldlM_cons] at h
    cases hh : processShredTx account e st s t with
    | none => rw [hh] at h; simp at h
    | some s2 =>
      rw [hh] at h
      obtain ⟨h1, h2⟩ := ih s2 s1 h
      obtain ⟨h3, h4⟩ := processShredTx_preserves account e st s t s2 hh
      exact ⟨h1.trans h3, h2.trans h4⟩

lemma foldlM_entries_preserves (account e : String) (st : Timestamp) :
    ∀ (ents : List SolanaEntryT) (s s1 : ShredState),
    ents.foldlM
        (fun st1 se =>
          se.transactions.foldlM (processShredTx account e st) st1) s
      = some s1 →
    s1.shutdown_sends = s.shutdown_sends ∧ s1.running = s.running := by
  intro ents
  induction ents with
  | nil =>
    intro s s1 h
    injection h with h'
    subst h'
    exact ⟨rfl, rfl⟩
  | cons se rest ih =>
    intro s s1 h
    rw [List.foldlM_cons] at h
    cases hh : se.transactions.foldlM (processShredTx account e st) s with
    | none => rw [hh] at h; simp at h
    | some s2 =>
      rw [hh] at h
      obtain ⟨h1, h2⟩ := ih s2 s1 h
      obtain ⟨h3, h4⟩ := foldlM_txs_preserves account e st se.transactions s s2 hh
      exact ⟨h1.trans h3, h2.trans h4⟩

lemma processEntry_preserves (account e : String) (st : Timestamp)
    (entry : ShredEntry) (s s1 : ShredState)
    (h : processEntry account e st s entry = some s1) :
    s1.shutdown_sends = s.shutdown_sends ∧ s1.running = s.running := by
  cases hent : entry.entries with
  | none =>
    simp only [processEntry, hent, Option.some.injEq] at h
    subst h
    exact ⟨rfl, rfl⟩
  | some entries =>
    simp only [processEntry, hent] at h
    exact foldlM_entries_preserves account e st entries s s1 h

lemma shredStep_inv (n : Nat) (account e : String) (st : Timestamp)
    (s : ShredState) (entry : ShredEntry) (s1 : ShredState)
    (h : shredStep n account e st s entry = some s1)
    (hinv : s.shutdown_sends ≤ 1 ∧ (s.running = true → s.shutdown_sends = 0)) :
    s1.shutdown_sends ≤ 1 ∧ (s1.running = true → s1.shutdown_sends = 0) := by
  by_cases hr : s.running = true
  · have hs0 := hinv.2 hr
    cases hp : processEntry account e st s entry with
    | none =>
      rw [shredStep, if_pos hr, hp] at h
      simp at h
    | some s2 =>
      have hstep_eq : shredStep n account e st s entry
          = (if s2.comp.get_valid_count = n then
              some { s2 with shutdown_sends := s2.shutdown_sends + 1
                             running := false }
            else some s2) := by
        rw [shredStep, if_pos hr, hp]
      rw [hstep_eq] at h
      obtain ⟨hps, hpr⟩ := processEntry_preserves account e st entry s s2 hp
      by_cases hcv : s2.comp.get_valid_count = n
      · rw [if_pos hcv] at h
        injection h with h'
        subst h'
        refine ⟨?_, ?_⟩
        · simp [hps, hs0]
        · intro hcontra
          simp at hcontra
      · rw [if_neg hcv] at h
        injection h with h'
        subst h'
        refine ⟨by omega, ?_⟩
        intro _
        rw [hps]
        exact hs0
  · rw [shredStep, if_neg hr] at h
    injection h with h'
    subst h'
    exact hinv

lemma shredRun_inv (n : Nat) (account e : String) (st : Timestamp) :
    ∀ (ents : List ShredEntry) (s s1 : ShredState),
    ents.foldlM (shredStep n account e st) s = some s1 →
    s.shutdown_sends ≤ 1 ∧ (s.running = true → s.shutdown_sends = 0) →
    s1.shutdown_sends ≤ 1 ∧ (s1.running = true → s1.shutdown_sends = 0) := by
  intro ents
  induction ents with
  | nil =>
    intro s s1 h hinv
    injection h with h'
    subst h'
    exact hinv
  | cons en rest ih =>
    intro s s1 h hinv
    rw [List.foldlM_cons] at h
    cases hh : shredStep n account e st s en with
    | none => rw [hh] at h; simp at h
    | some s2 =>
      rw [hh] at h
      exact ih s2 s1 h (shredStep_inv n account e st s en s2 hh hinv)

lemma shredRun_frozen (n : Nat) (account e : String) (st : Timestamp) :
    ∀ (ents : List ShredEntry) (s : ShredState),
    s.running = false →
    ents.foldlM (shredStep n account e st) s = some s := by
  intro ents
  induction ents with
  | nil => intro s h; rfl
  | cons en rest ih =>
    intro s h
    have hstep : shredStep n account e st s en = some s := by
      unfold shredStep
      rw [if_neg (by rw [h]; simp)]
    rw [List.foldlM_cons, hstep]
    exact ih s h

lemma shredRun_go (n : Nat) (account e : String) (st : Timestamp) :
    ∀ (ents : List ShredEntry) (s : ShredState),
    (∀ en ∈ ents, ∀ t ∈ entryTxs en, t.1.signatures ≠ []) →
    s.running = true → s.shutdown_sends = 0 →
    s.comp.get_valid_count < n →
    (∃ k, ((entriesMatchedSigs account (ents.take k)).foldl insertSig
        (s.comp.records.map Prod.fst)).length = n) →
    ∃ s1, ents.foldlM (shredStep n account e st) s = some s1
      ∧ s1.shutdown_sends = 1 ∧ s1.running = false := by
  intro ents
  induction ents with
  | nil =>
    intro s _ hr hs hc hex
    exfalso
    obtain ⟨k, hk⟩ := hex
    simp [entriesMatchedSigs] at hk
    simp [get_valid_count_eq_keys_length] at hc
    omega
  | cons en rest ih =>
    intro s hwf hr hs hc hex
    obtain ⟨s2, hp, hk2, hsend2, hrun2⟩ :=
      processEntry_keys account e st en s (hwf en (List.mem_cons_self _ _))
    have hcount2 : s2.comp.get_valid_count
        = ((matchedSigs account en).foldl insertSig
            (s.comp.records.map Prod.fst)).length := by
      rw [get_valid_count_eq_keys_length, hk2]
    by_cases hcv : s2.comp.get_valid_count = n
    · have hstep_eq : shredStep n account e st s en
          = some { s2 with shutdown_sends := s2.shutdown_sends + 1
                           running := false } := by
        simp [shredStep, hr, hp, hcv]
      refine ⟨{ s2 with shutdown_sends := s2.shutdown_sends + 1
                        running := false }, ?_, ?_, rfl⟩
      · rw [List.foldlM_cons, hstep_eq]
        exact shredRun_frozen n account e st rest _ rfl
      · simp [hsend2, hs]
    · have hstep_eq : shredStep n account e st s en = some s2 := by
        simp [shredStep, hr, hp, hcv]
      obtain ⟨k, hk⟩ := hex
      cases k with
      | zero =>
        exfalso
        simp [entriesMatchedSigs] at hk
        simp [get_valid_count_eq_keys_length] at hc
        omega
      | succ k' =>
        have htake : entriesMatchedSigs account ((en :: rest).take (k' + 1))
            = matchedSigs account en
              ++ entriesMatchedSigs account (rest.take k') := by
          simp [entriesMatchedSigs]
        rw [htake, List.foldl_append] at hk
        by_cases hlt : s2.comp.get_valid_count < n
        · obtain ⟨s3, hfold, hs3, hr3⟩ := ih s2
            (fun u hu => hwf u (List.mem_cons_of_mem _ hu))
            (hrun2.trans hr) (hsend2.trans hs) hlt
            ⟨k', by rw [hk2]; exact hk⟩
          refine ⟨s3, ?_, hs3, hr3⟩
          rw [List.foldlM_cons, hstep_eq]
          exact hfold
        · exfalso
          have hmono := foldl_insertSig_le
            (entriesMatchedSigs account (rest.take k'))
            ((matchedSigs account en).foldl insertSig
              (s.comp.records.map Prod.fst))
          omega

/-- Claim C1 (counterexample): in the shredstream (bundled-entry) variant the
shutdown check does NOT run after every single add. With target N = 1, one
bundled entry carrying two new matching transactions makes the valid count
cross from 0 to 2 within one message: the count equalled N right after the
first add, but the equality check runs only once after the whole entry, sees
2 ≠ 1, and the trigger never fires (0 times, not exactly once) even though
the stream produced at least N distinct signatures. -/
theorem claim_C1_counterexample :
    (shredRun 1 "acct" "e" 0
      [⟨0, some [⟨[(⟨["sA"], .legacy ["acct"]⟩, 1),
                  (⟨["sB"], .legacy ["acct"]⟩, 2)]⟩]⟩]).map
        ShredState.shutdown_sends = some 0
    ∧ distinctCount ["sA"] = 1
    ∧ distinctCount (entriesMatchedSigs "acct"
        [⟨0, some [⟨[(⟨["sA"], .legacy ["acct"]⟩, 1),
                    (⟨["sB"], .legacy ["acct"]⟩, 2)]⟩]⟩]) = 2 :=
  ⟨by decide, by decide, by decide⟩

/-- Claim C1 (amended): in the dual-stream (yellowstone) variant the check
runs immediately after each add under the same lock, so a runner processing a
stream of matching transaction updates that eventually produces N distinct
signatures (N positive) broadcasts the shutdown signal exactly once and exits
its loop. In the shredstream variant the check runs only once per bundled
entry, after all of that entry's adds: over any run the trigger fires at most
once, and it fires exactly once precisely when the valid count equals N at
some entry boundary — a bundled entry that makes the count skip over N
prevents the trigger from ever firing (see the counterexample). -/
theorem claim_C1_amended :
    (∀ (n : Nat) (account e : String) (st : Timestamp)
        (evs : List (String × Timestamp)),
        0 < n → n ≤ distinctCount (evs.map Prod.fst) →
        ∃ s', yellowstoneRun n account e st (txStream account evs) = some s'
          ∧ s'.shutdown_sends = 1 ∧ s'.running = false)
    ∧ (∀ (n : Nat) (account e : String) (st : Timestamp)
        (ents : List ShredEntry) (r : ShredState),
        shredRun n account e st ents = some r → r.shutdown_sends ≤ 1)
    ∧ (∀ (n : Nat) (account e : String) (st : Timestamp)
        (ents : List ShredEntry),
        0 < n →
        (∀ en ∈ ents, ∀ t ∈ entryTxs en, t.1.signatures ≠ []) →
        (∃ k, distinctCount (entriesMatchedSigs account (ents.take k)) = n) →
        ∃ r, shredRun n account e st ents = some r
          ∧ r.shutdown_sends = 1 ∧ r.running = false) := by
  refine ⟨?_, ?_, ?_⟩
  · intro n account e st evs hn hdist
    obtain ⟨s', hrun, h1, h2⟩ := yellowstoneRun_go n account e st evs
      initialYellowstoneState rfl rfl hn
    exact ⟨s', hrun, (h1 hdist).1, (h1 hdist).2⟩
  · intro n account e st ents r h
    exact (shredRun_inv n account e st ents initialShredState r h
      ⟨by decide, fun _ => rfl⟩).1
  · intro n account e st ents hn hwf hex
    obtain ⟨r, hrun, h1, h2⟩ := shredRun_go n account e st ents
      initialShredState hwf rfl rfl hn hex
    exact ⟨r, hrun, h1, h2⟩

/-- Witness instantiating `claim_C1_amended` on a concrete dual-stream run
with a duplicate signature and target 2. -/
theorem claim_C1_witness :
    0 < 2
    ∧ 2 ≤ distinctCount
        (([("sA", (1 : Timestamp)), ("sB", 2), ("sA", 3)]).map Prod.fst)
    ∧ (∃ s', yellowstoneRun 2 "acct" "e" 0
        (txStream "acct" [("sA", 1), ("sB", 2), ("sA", 3)]) = some s'
        ∧ s'.shutdown_sends = 1 ∧ s'.running = false) :=
  ⟨by decide, by decide,
   claim_C1_amended.1 2 "acct" "e" 0 [("sA", 1), ("sB", 2), ("sA", 3)]
     (by decide) (by decide)⟩
